import Mathlib

/-!
# Verification of the debt payoff engine

Shallow embedding of the payoff simulation engine of `lib/debtPlan.ts`
(the canonical engine of the repository: `parseNum`, `cloneNumericDebts`,
`calculatePlan` with the priority-sorted cascade allocation and the
1,200,000-month safety cap).

Modelling conventions:
* JavaScript floating-point numbers are modelled as exact rationals (`ℚ`).
* The result of `parseFloat` on a raw input string is modelled as an
  `Option ℚ`: `some q` when the string parses to the finite number `q`,
  `none` when it parses to `NaN` or `±Infinity`.  `parseNum` then applies
  the engine's `Number.isFinite(n) ? n : 0` policy.
* The mutable arrays (`interestByIndex`, `minDueByIndex`,
  `totalPaymentByIndex`) become lists indexed in lockstep with the
  working-debt list; JS `arr[idx] ?? 0` becomes `List.getD arr idx 0`.
* JavaScript `Array.prototype.sort` is stable; the sort of the priority
  list is embedded as a stable insertion sort with exactly the source's
  comparator turned into a boolean "may come before" relation
  (`cmp a b ≤ 0`).
* The two `while` loops are embedded with explicit fuel.  The outer loop's
  fuel is exactly its source bound `maxMonths - months`.  The inner
  allocation loop has no source bound (it relies on its `allocatedThisPass`
  break); as every pass after the second allocates nothing, any fuel ≥ 2
  realises the source behaviour, and a large constant is used.
-/

namespace DebtPlan

/-- The engine's activity/termination threshold `0.01`. -/
def eps : ℚ := 1 / 100

/-- The tolerance `1e-6` used by the budget-vs-minimums check. -/
def tol : ℚ := 1 / 1000000

/-- Constant `LIFETIME_YEARS = 100`. -/
def LIFETIME_YEARS : ℕ := 100

/-- Constant `MONTHS_IN_YEAR = 12`. -/
def MONTHS_IN_YEAR : ℕ := 12

/-- Constant `MAX_LIFETIMES = 1000`. -/
def MAX_LIFETIMES : ℕ := 1000

/-- Constant `MAX_MONTHS = LIFETIME_YEARS * MONTHS_IN_YEAR * MAX_LIFETIMES = 1200000`,
the safety cap of the simulation loop. -/
def MAX_MONTHS : ℕ := LIFETIME_YEARS * MONTHS_IN_YEAR * MAX_LIFETIMES

/-- Fuel for the inner allocation `while` loop (see module comment). -/
def ALLOC_FUEL : ℕ := 1000000

/-- The three strategies `"warrior" | "rebel" | "wizard"`. -/
inductive Strategy where
  | warrior : Strategy
  | rebel : Strategy
  | wizard : Strategy
deriving DecidableEq

/-- Input record `Debt` (fields held as strings while typing; here each
numeric field is the modelled `parseFloat` outcome of that string). -/
structure Debt where
  id : ℕ
  name : String
  balance : Option ℚ
  apr : Option ℚ
  minPayment : Option ℚ
deriving DecidableEq

/-- Output record `ScheduleRow`. -/
structure ScheduleRow where
  month : ℕ
  totalBalanceEnd : ℚ
  interestPaid : ℚ
  principalPaid : ℚ
deriving DecidableEq

/-- Success payload `PlanResult`. -/
structure PlanResult where
  months : ℕ
  totalInterest : ℚ
  strategyUsed : Strategy
  schedule : List ScheduleRow
deriving DecidableEq

deriving instance DecidableEq for Except

/-- Function `parseNum`: `parseFloat(value || "0")` then `Number.isFinite(n) ? n : 0`. -/
def parseNum (value : Option ℚ) : ℚ := value.getD 0

/-- Numeric working record `NumericDebt`. -/
structure NumericDebt where
  id : ℕ
  name : String
  balance : ℚ
  apr : ℚ
  minPayment : ℚ
deriving DecidableEq

/-- Dummy debt used as the (never reached) out-of-range list default. -/
def dummyDebt : NumericDebt := ⟨0, "", 0, 0, 0⟩

/-- Function `cloneNumericDebts`: parse, clamp at 0, and drop debts with
non-positive balance or non-positive minimum payment. -/
def cloneNumericDebts (input : List Debt) : List NumericDebt :=
  (input.map fun d =>
    { id := d.id
      name := if d.name = "" then "Card " ++ toString d.id else d.name
      balance := max 0 (parseNum d.balance)
      apr := max 0 (parseNum d.apr)
      minPayment := max 0 (parseNum d.minPayment) : NumericDebt }).filter
    fun d => decide (0 < d.balance) && decide (0 < d.minPayment)

/-- Per-month interest of one debt: `0` for inactive debts
(`balance <= 0.01`), else `balance * (apr / 100 / 12)`. -/
def interestOf (d : NumericDebt) : ℚ :=
  if d.balance ≤ eps then 0 else d.balance * (d.apr / 100 / 12)

/-- Per-month minimum due of one debt: `0` for inactive debts, else
`min(minPayment, balance + interest)`. -/
def minDueOf (d : NumericDebt) : ℚ :=
  if d.balance ≤ eps then 0 else min d.minPayment (d.balance + interestOf d)

/-- Item of the priority list: index plus a snapshot of balance, APR and
this month's interest-in-dollars. -/
structure PriorityItem where
  i : ℕ
  balance : ℚ
  apr : ℚ
  interest : ℚ
deriving DecidableEq

/-- The unsorted priority list: one item per debt with `balance > 0.01`.
(The `|| 0` NaN-guard of the source is an identity over `ℚ`.) -/
def priorityItems (debts : List NumericDebt) : List PriorityItem :=
  (debts.enum.map fun p =>
    { i := p.1
      balance := p.2.balance
      apr := p.2.apr
      interest := p.2.apr / 100 / 12 * p.2.balance : PriorityItem }).filter
    fun p => decide (eps < p.balance)

/-- The source's sort comparator, as the relation "the comparator of `a`
against `b` is ≤ 0", i.e. `a` may be placed no later than `b`. -/
def stratLE (strategy : Strategy) (a b : PriorityItem) : Bool :=
  match strategy with
  | .warrior =>
      if a.balance ≠ b.balance then decide (a.balance < b.balance)
      else decide (b.apr ≤ a.apr)
  | .rebel =>
      if b.apr ≠ a.apr then decide (b.apr < a.apr)
      else decide (b.balance ≤ a.balance)
  | .wizard =>
      if b.interest ≠ a.interest then decide (b.interest < a.interest)
      else decide (b.apr ≤ a.apr)

/-- Stable sort of the priority list (JS `sort` is stable). -/
def sortItems (strategy : Strategy) (l : List PriorityItem) : List PriorityItem :=
  l.insertionSort fun a b => stratLE strategy a b = true

/-- State of the allocation loop: the `totalPaymentByIndex` array, the
remaining `leftover`, and `allocatedThisPass`. -/
structure AllocState where
  payments : List ℚ
  leftover : ℚ
  allocated : ℚ
deriving DecidableEq

/-- Body of the `for (const item of priorityList)` loop. -/
def allocStep (debts : List NumericDebt) (interestByIndex : List ℚ)
    (s : AllocState) (item : PriorityItem) : AllocState :=
  let d := debts.getD item.i dummyDebt
  if d.balance ≤ eps ∨ s.leftover ≤ eps then s
  else
    let interest := interestByIndex.getD item.i 0
    let alreadyPaying := s.payments.getD item.i 0
    let maxNeeded := d.balance + interest - alreadyPaying
    if maxNeeded ≤ eps then s
    else
      let extra := min maxNeeded s.leftover
      if extra ≤ 1 / 1000 then s
      else
        { payments := s.payments.set item.i (alreadyPaying + extra)
          leftover := s.leftover - extra
          allocated := s.allocated + extra }

/-- One pass of the allocation loop over the sorted priority list,
starting with `allocatedThisPass = 0`. -/
def allocPass (debts : List NumericDebt) (interestByIndex : List ℚ)
    (items : List PriorityItem) (payments : List ℚ) (leftover : ℚ) : AllocState :=
  items.foldl (allocStep debts interestByIndex) ⟨payments, leftover, 0⟩

/-- The `while (leftover > 0.01)` allocation loop with its
`allocatedThisPass <= 0.001` break. -/
def allocLoop (debts : List NumericDebt) (interestByIndex : List ℚ)
    (items : List PriorityItem) : ℕ → List ℚ → ℚ → List ℚ × ℚ
  | 0, payments, leftover => (payments, leftover)
  | fuel + 1, payments, leftover =>
      if leftover ≤ eps then (payments, leftover)
      else
        let s := allocPass debts interestByIndex items payments leftover
        if s.allocated ≤ 1 / 1000 then (s.payments, s.leftover)
        else allocLoop debts interestByIndex items fuel s.payments s.leftover

/-- Outcome of one month of simulation. -/
structure MonthOutcome where
  debts : List NumericDebt
  totalBalanceEnd : ℚ
  interestPaid : ℚ
  principalPaid : ℚ
deriving DecidableEq

/-- The `interestByIndex` array of one month. -/
def interestByIndex (debts : List NumericDebt) : List ℚ := debts.map interestOf

/-- The `minDueByIndex` array of one month. -/
def minDueByIndex (debts : List NumericDebt) : List ℚ := debts.map minDueOf

/-- The `totalPaymentByIndex` array after the allocation loop: start from
the minimum dues and allocate `leftover = max(0, budget - sumMinDue)` by
strategy priority. -/
def totalPaymentByIndex (strategy : Strategy) (monthlyBudget : ℚ)
    (debts : List NumericDebt) : List ℚ :=
  (allocLoop debts (interestByIndex debts) (sortItems strategy (priorityItems debts))
    ALLOC_FUEL (minDueByIndex debts)
    (max 0 (monthlyBudget - (minDueByIndex debts).sum))).1

/-- One month of the simulation loop body (everything except the month
counter, the schedule push and the break test): interest accrual, minimum
dues, leftover allocation by strategy, and payment application. -/
def monthCore (strategy : Strategy) (monthlyBudget : ℚ)
    (debts : List NumericDebt) : MonthOutcome :=
  let payments := totalPaymentByIndex strategy monthlyBudget debts
  let newDebts := debts.enum.map fun p =>
    let newBalance :=
      p.2.balance + (interestByIndex debts).getD p.1 0 - payments.getD p.1 0
    { p.2 with balance := if newBalance < 0 then 0 else newBalance }
  { debts := newDebts
    totalBalanceEnd := (newDebts.map fun d => d.balance).sum
    interestPaid := (interestByIndex debts).sum
    principalPaid := (debts.enum.map fun p =>
      max 0 (payments.getD p.1 0 - (interestByIndex debts).getD p.1 0)).sum }

/-- The simulation `while` loop.  `fuel` is exactly `maxMonths - months`,
so the loop guard `months < maxMonths` is `fuel > 0`. -/
def runLoop (strategy : Strategy) (monthlyBudget : ℚ) :
    ℕ → ℕ → ℚ → List ScheduleRow → List NumericDebt →
    ℕ × ℚ × List ScheduleRow × List NumericDebt
  | 0, months, totalInterest, schedule, debts =>
      (months, totalInterest, schedule, debts)
  | fuel + 1, months, totalInterest, schedule, debts =>
      if debts.any fun d => decide (eps < d.balance) then
        let o := monthCore strategy monthlyBudget debts
        let row : ScheduleRow :=
          ⟨months + 1, o.totalBalanceEnd, o.interestPaid, o.principalPaid⟩
        if o.totalBalanceEnd ≤ eps then
          (months + 1, totalInterest + o.interestPaid, schedule ++ [row], o.debts)
        else
          runLoop strategy monthlyBudget fuel (months + 1)
            (totalInterest + o.interestPaid) (schedule ++ [row]) o.debts
      else (months, totalInterest, schedule, debts)

/-- Error message of the positive-budget check. -/
def budgetErr : String := "Please enter a positive monthly budget."

/-- Error message of the empty-debt-list check. -/
def noDebtsErr : String :=
  "Add at least one card with a balance and minimum payment."

/-- Error message of the budget-below-minimums check. -/
def belowMinsErr : String :=
  "Your total minimum payments are higher than your monthly budget. Increase your budget or adjust card data."

/-- Error message of the safety-cap (plan-exceeds-horizon) failure. -/
def horizonErr : String :=
  "At this payment level it would take more than 1,000 lifetimes to become debt free. Increase your budget."

/-- The engine entry point `calculatePlan` of `lib/debtPlan.ts`.  (After `parseNum` the budget is
always a finite rational, so `!Number.isFinite(monthlyBudget)` cannot fire
and only `monthlyBudget <= 0` remains of the first guard.) -/
def calculatePlan (debtsInput : List Debt) (monthlyBudgetStr : Option ℚ)
    (strategy : Strategy) : Except String PlanResult :=
  let monthlyBudget := parseNum monthlyBudgetStr
  if monthlyBudget ≤ 0 then .error budgetErr
  else
    let debts := cloneNumericDebts debtsInput
    if debts.isEmpty then .error noDebtsErr
    else
      let totalMin := (debts.map fun d => d.minPayment).sum
      if monthlyBudget + tol < totalMin then .error belowMinsErr
      else
        let r := runLoop strategy monthlyBudget MAX_MONTHS 0 0 [] debts
        if MAX_MONTHS ≤ r.1 then .error horizonErr
        else .ok ⟨r.1, r.2.1, strategy, r.2.2.1⟩

/-- The month-by-month trajectory of working-debt states: state `0` is the
filtered input, state `k+1` is one simulated month after state `k`.
(A fully paid-off state is a fixed point, so this extends the loop's
states past termination.) -/
def monthStates (strategy : Strategy) (monthlyBudget : ℚ)
    (debts : List NumericDebt) : ℕ → List NumericDebt
  | 0 => debts
  | k + 1 => (monthCore strategy monthlyBudget (monthStates strategy monthlyBudget debts k)).debts

/-- Total balance of a working-debt list. -/
def totalBalance (debts : List NumericDebt) : ℚ :=
  (debts.map fun d => d.balance).sum

/-!
## Allocation-loop lemmas

Pointwise facts about `totalPaymentByIndex`: the allocation only ever
raises a debt's assigned payment above its minimum due, and never touches
the (zero) payment of an inactive debt.
-/

/-- Reading `getD` after `set` at the same index. -/
theorem getD_set_same (l : List ℚ) (i : ℕ) (a : ℚ) :
    (l.set i a).getD i 0 = if i < l.length then a else l.getD i 0 := by
  by_cases h : i < l.length
  · rw [if_pos h, List.getD_eq_getElem?_getD, List.getElem?_set, if_pos rfl,
      if_pos h, Option.getD_some]
  · rw [if_neg h, List.getD_eq_getElem?_getD, List.getD_eq_getElem?_getD,
      List.getElem?_eq_none (by rw [List.length_set]; omega),
      List.getElem?_eq_none (by omega)]

/-- Reading `getD` after `set` at a different index. -/
theorem getD_set_other (l : List ℚ) {i j : ℕ} (h : i ≠ j) (a : ℚ) :
    (l.set i a).getD j 0 = l.getD j 0 := by
  rw [List.getD_eq_getElem?_getD, List.getD_eq_getElem?_getD, List.getElem?_set_ne h]

theorem allocStep_getD_mono (debts : List NumericDebt) (ints : List ℚ)
    (s : AllocState) (item : PriorityItem) (j : ℕ) :
    s.payments.getD j 0 ≤ (allocStep debts ints s item).payments.getD j 0 := by
  simp only [allocStep]
  split
  · exact le_rfl
  split
  · exact le_rfl
  split
  · exact le_rfl
  rename_i hextra
  have hE : (0 : ℚ) < ((debts.getD item.i dummyDebt).balance + ints.getD item.i 0 -
      s.payments.getD item.i 0) ⊓ s.leftover := by
    have := not_le.mp hextra
    linarith
  rcases eq_or_ne item.i j with h | h
  · subst h
    rw [getD_set_same]
    split
    · linarith
    · exact le_rfl
  · rw [getD_set_other _ h]

theorem allocFold_getD_mono (debts : List NumericDebt) (ints : List ℚ)
    (items : List PriorityItem) (s : AllocState) (j : ℕ) :
    s.payments.getD j 0 ≤ ((items.foldl (allocStep debts ints) s).payments).getD j 0 := by
  induction items generalizing s with
  | nil => exact le_rfl
  | cons a l ih =>
      exact le_trans (allocStep_getD_mono debts ints s a j) (ih _)

theorem allocLoop_getD_mono (debts : List NumericDebt) (ints : List ℚ)
    (items : List PriorityItem) (fuel : ℕ) (payments : List ℚ) (leftover : ℚ)
    (j : ℕ) :
    payments.getD j 0 ≤ ((allocLoop debts ints items fuel payments leftover).1).getD j 0 := by
  induction fuel generalizing payments leftover with
  | zero => exact le_rfl
  | succ n ih =>
      simp only [allocLoop]
      split
      · exact le_rfl
      split
      · exact allocFold_getD_mono debts ints items ⟨payments, leftover, 0⟩ j
      · exact le_trans (allocFold_getD_mono debts ints items ⟨payments, leftover, 0⟩ j)
          (ih _ _)

theorem allocStep_getD_inactive (debts : List NumericDebt) (ints : List ℚ)
    (s : AllocState) (item : PriorityItem) (j : ℕ)
    (h : (debts.getD j dummyDebt).balance ≤ eps) :
    (allocStep debts ints s item).payments.getD j 0 = s.payments.getD j 0 := by
  simp only [allocStep]
  split
  · rfl
  split
  · rfl
  split
  · rfl
  rename_i hact _ _
  rcases eq_or_ne item.i j with hij | hij
  · exfalso
    subst hij
    exact hact (Or.inl h)
  · rw [getD_set_other _ hij]

theorem allocFold_getD_inactive (debts : List NumericDebt) (ints : List ℚ)
    (items : List PriorityItem) (s : AllocState) (j : ℕ)
    (h : (debts.getD j dummyDebt).balance ≤ eps) :
    ((items.foldl (allocStep debts ints) s).payments).getD j 0 = s.payments.getD j 0 := by
  induction items generalizing s with
  | nil => rfl
  | cons a l ih =>
      rw [List.foldl_cons, ih _, allocStep_getD_inactive debts ints s a j h]

theorem allocLoop_getD_inactive (debts : List NumericDebt) (ints : List ℚ)
    (items : List PriorityItem) (fuel : ℕ) (payments : List ℚ) (leftover : ℚ)
    (j : ℕ) (h : (debts.getD j dummyDebt).balance ≤ eps) :
    ((allocLoop debts ints items fuel payments leftover).1).getD j 0 =
      payments.getD j 0 := by
  induction fuel generalizing payments leftover with
  | zero => rfl
  | succ n ih =>
      simp only [allocLoop]
      split
      · rfl
      split
      · exact allocFold_getD_inactive debts ints items ⟨payments, leftover, 0⟩ j h
      · rw [ih _ _]
        exact allocFold_getD_inactive debts ints items ⟨payments, leftover, 0⟩ j h

/-- Each debt's allocated payment is at least its minimum due. -/
theorem minDue_le_totalPayment (strategy : Strategy) (monthlyBudget : ℚ)
    (debts : List NumericDebt) (j : ℕ) :
    (minDueByIndex debts).getD j 0 ≤
      (totalPaymentByIndex strategy monthlyBudget debts).getD j 0 :=
  allocLoop_getD_mono _ _ _ _ _ _ j

/-- An inactive debt's allocated payment equals its (zero) minimum due. -/
theorem totalPayment_inactive (strategy : Strategy) (monthlyBudget : ℚ)
    (debts : List NumericDebt) (j : ℕ)
    (h : (debts.getD j dummyDebt).balance ≤ eps) :
    (totalPaymentByIndex strategy monthlyBudget debts).getD j 0 =
      (minDueByIndex debts).getD j 0 :=
  allocLoop_getD_inactive _ _ _ _ _ _ j h

/-!
## Month-step lemmas
-/

theorem interestByIndex_getD (debts : List NumericDebt) (i : ℕ) (h : i < debts.length) :
    (interestByIndex debts).getD i 0 = interestOf (debts.getD i dummyDebt) := by
  rw [interestByIndex, List.getD_eq_getElem _ _ (by simpa using h),
    List.getElem_map, List.getD_eq_getElem _ _ h]

theorem minDueByIndex_getD (debts : List NumericDebt) (i : ℕ) (h : i < debts.length) :
    (minDueByIndex debts).getD i 0 = minDueOf (debts.getD i dummyDebt) := by
  rw [minDueByIndex, List.getD_eq_getElem _ _ (by simpa using h),
    List.getElem_map, List.getD_eq_getElem _ _ h]

theorem monthCore_debts_length (s : Strategy) (b : ℚ) (debts : List NumericDebt) :
    (monthCore s b debts).debts.length = debts.length := by
  simp [monthCore, List.enum_length]

/-- The balance update of one debt in one month. -/
theorem monthCore_debts_getD (s : Strategy) (b : ℚ) (debts : List NumericDebt)
    (i : ℕ) (h : i < debts.length) :
    (monthCore s b debts).debts.getD i dummyDebt =
      { debts.getD i dummyDebt with balance :=
          if (debts.getD i dummyDebt).balance + (interestByIndex debts).getD i 0 -
              (totalPaymentByIndex s b debts).getD i 0 < 0 then 0
          else (debts.getD i dummyDebt).balance + (interestByIndex debts).getD i 0 -
              (totalPaymentByIndex s b debts).getD i 0 } := by
  rw [List.getD_eq_getElem _ _ (by rw [monthCore_debts_length]; exact h),
    List.getD_eq_getElem _ _ h]
  simp only [monthCore]
  rw [List.getElem_map, List.getElem_enum]

theorem monthCore_balance_nonneg (s : Strategy) (b : ℚ) (debts : List NumericDebt) :
    ∀ d ∈ (monthCore s b debts).debts, 0 ≤ d.balance := by
  intro d hd
  simp only [monthCore, List.mem_map] at hd
  obtain ⟨p, hp, rfl⟩ := hd
  dsimp only
  split
  · exact le_rfl
  · rename_i hx
    exact not_lt.mp hx

theorem monthCore_totalBalanceEnd_eq (s : Strategy) (b : ℚ) (debts : List NumericDebt) :
    (monthCore s b debts).totalBalanceEnd = totalBalance (monthCore s b debts).debts := rfl

theorem totalBalance_nonneg (debts : List NumericDebt)
    (h : ∀ d ∈ debts, 0 ≤ d.balance) : 0 ≤ totalBalance debts := by
  apply List.sum_nonneg
  intro x hx
  simp only [List.mem_map] at hx
  obtain ⟨d, hd, rfl⟩ := hx
  exact h d hd

theorem balance_le_totalBalance (debts : List NumericDebt)
    (h : ∀ d ∈ debts, 0 ≤ d.balance) (d : NumericDebt) (hd : d ∈ debts) :
    d.balance ≤ totalBalance debts := by
  apply List.single_le_sum
  · intro x hx
    simp only [List.mem_map] at hx
    obtain ⟨e, he, rfl⟩ := hx
    exact h e he
  · exact List.mem_map_of_mem _ hd

private theorem sum_map_add_helper {α : Type} (l : List α) (f g : α → ℚ) :
    (l.map fun x => f x + g x).sum = (l.map f).sum + (l.map g).sum := by
  induction l with
  | nil => simp
  | cons a t ih => simp [ih]; ring

/-- Per month, the recorded total principal is at least the drop in total
balance (principal is floored at zero per debt, the balance at zero). -/
theorem monthCore_principal_ge (s : Strategy) (b : ℚ) (debts : List NumericDebt) :
    totalBalance debts - (monthCore s b debts).totalBalanceEnd ≤
      (monthCore s b debts).principalPaid := by
  have htot : totalBalance debts = (debts.enum.map fun p => p.2.balance).sum := by
    rw [totalBalance]
    conv_lhs => rw [← List.enum_map_snd debts]
    rw [List.map_map]
    rfl
  have hnew : (monthCore s b debts).totalBalanceEnd =
      (debts.enum.map fun p =>
        let nb := p.2.balance + (interestByIndex debts).getD p.1 0 -
          (totalPaymentByIndex s b debts).getD p.1 0
        if nb < 0 then 0 else nb).sum := by
    simp only [monthCore, List.map_map]
    rfl
  have hpr : (monthCore s b debts).principalPaid =
      (debts.enum.map fun p =>
        max 0 ((totalPaymentByIndex s b debts).getD p.1 0 -
          (interestByIndex debts).getD p.1 0)).sum := rfl
  rw [htot, hnew, hpr, sub_le_iff_le_add, ← sum_map_add_helper]
  apply List.sum_le_sum
  intro p _
  dsimp only
  set pay := (totalPaymentByIndex s b debts).getD p.1 0 with hpay
  set int := (interestByIndex debts).getD p.1 0 with hint
  by_cases hx : p.2.balance + int - pay < 0
  · rw [if_pos hx]
    have h1 : p.2.balance < pay - int := by linarith
    have h2 : pay - int ≤ max 0 (pay - int) := le_max_right _ _
    linarith
  · rw [if_neg hx]
    have h2 : pay - int ≤ max 0 (pay - int) := le_max_right _ _
    linarith

theorem cloneNumericDebts_pos (input : List Debt) :
    ∀ d ∈ cloneNumericDebts input, 0 < d.balance ∧ 0 ≤ d.apr ∧ 0 < d.minPayment := by
  intro d hd
  simp only [cloneNumericDebts, List.mem_filter, List.mem_map] at hd
  obtain ⟨⟨x, _, rfl⟩, hcond⟩ := hd
  simp only [Bool.and_eq_true, decide_eq_true_eq] at hcond
  exact ⟨hcond.1, le_max_left _ _, hcond.2⟩

theorem monthStates_succ (s : Strategy) (b : ℚ) (debts : List NumericDebt) (k : ℕ) :
    monthStates s b debts (k + 1) =
      (monthCore s b (monthStates s b debts k)).debts := rfl

theorem monthStates_balance_nonneg (s : Strategy) (b : ℚ) (debts : List NumericDebt)
    (h0 : ∀ d ∈ debts, 0 ≤ d.balance) (k : ℕ) :
    ∀ d ∈ monthStates s b debts k, 0 ≤ d.balance := by
  cases k with
  | zero => exact h0
  | succ n => exact monthCore_balance_nonneg s b (monthStates s b debts n)

theorem monthStates_length (s : Strategy) (b : ℚ) (debts : List NumericDebt) (k : ℕ) :
    (monthStates s b debts k).length = debts.length := by
  induction k with
  | zero => rfl
  | succ n ih => rw [monthStates_succ, monthCore_debts_length, ih]

/-!
## Simulation-loop lemmas
-/

/-- Eliminating a successful `calculatePlan`: the three validation gates
passed, the loop exited below the cap, and the result repackages the
loop's output. -/
theorem calculatePlan_ok_elim {input : List Debt} {budget : Option ℚ}
    {s : Strategy} {r : PlanResult}
    (h : calculatePlan input budget s = .ok r) :
    0 < parseNum budget ∧ cloneNumericDebts input ≠ [] ∧
    (runLoop s (parseNum budget) MAX_MONTHS 0 0 [] (cloneNumericDebts input)).1 <
      MAX_MONTHS ∧
    r = ⟨(runLoop s (parseNum budget) MAX_MONTHS 0 0 [] (cloneNumericDebts input)).1,
      (runLoop s (parseNum budget) MAX_MONTHS 0 0 [] (cloneNumericDebts input)).2.1, s,
      (runLoop s (parseNum budget) MAX_MONTHS 0 0 [] (cloneNumericDebts input)).2.2.1⟩ := by
  simp only [calculatePlan] at h
  split at h
  · exact absurd h (by simp)
  rename_i h1
  split at h
  · exact absurd h (by simp)
  rename_i h2
  split at h
  · exact absurd h (by simp)
  split at h
  · exact absurd h (by simp)
  rename_i h4
  rw [Except.ok.injEq] at h
  exact ⟨not_le.mp h1, fun he => h2 (by rw [he]; rfl), not_le.mp h4, h.symm⟩

theorem runLoop_rows_nonneg (s : Strategy) (b : ℚ) (fuel months : ℕ) (ti : ℚ)
    (sched : List ScheduleRow) (debts : List NumericDebt)
    (h : ∀ row ∈ sched, 0 ≤ row.totalBalanceEnd) :
    ∀ row ∈ (runLoop s b fuel months ti sched debts).2.2.1,
      0 ≤ row.totalBalanceEnd := by
  induction fuel generalizing months ti sched debts with
  | zero => exact h
  | succ n ih =>
      simp only [runLoop]
      have hrow0 : 0 ≤ (monthCore s b debts).totalBalanceEnd := by
        rw [monthCore_totalBalanceEnd_eq]
        exact totalBalance_nonneg _ (monthCore_balance_nonneg s b debts)
      have happ : ∀ row ∈ sched ++
          [(⟨months + 1, (monthCore s b debts).totalBalanceEnd,
            (monthCore s b debts).interestPaid,
            (monthCore s b debts).principalPaid⟩ : ScheduleRow)],
          0 ≤ row.totalBalanceEnd := by
        intro row hrow
        rcases List.mem_append.mp hrow with h1 | h2
        · exact h row h1
        · simp only [List.mem_singleton] at h2
          rw [h2]
          exact hrow0
      split
      · split
        · exact happ
        · exact ih _ _ _ _ happ
      · exact h

/-- Out-of-range default row. -/
def dummyRow : ScheduleRow := ⟨0, 0, 0, 0⟩

theorem runLoop_schedule_numbering (s : Strategy) (b : ℚ) (fuel months : ℕ)
    (ti : ℚ) (sched : List ScheduleRow) (debts : List NumericDebt)
    (hlen : sched.length = months)
    (hnum : ∀ k, k < sched.length → (sched.getD k dummyRow).month = k + 1) :
    (runLoop s b fuel months ti sched debts).2.2.1.length =
      (runLoop s b fuel months ti sched debts).1 ∧
    ∀ k, k < (runLoop s b fuel months ti sched debts).2.2.1.length →
      ((runLoop s b fuel months ti sched debts).2.2.1.getD k dummyRow).month = k + 1 := by
  induction fuel generalizing months ti sched debts with
  | zero => exact ⟨hlen, hnum⟩
  | succ n ih =>
      simp only [runLoop]
      have hlen2 : (sched ++
          [(⟨months + 1, (monthCore s b debts).totalBalanceEnd,
            (monthCore s b debts).interestPaid,
            (monthCore s b debts).principalPaid⟩ : ScheduleRow)]).length = months + 1 := by
        rw [List.length_append, List.length_singleton, hlen]
      have hnum2 : ∀ k, k < (sched ++
          [(⟨months + 1, (monthCore s b debts).totalBalanceEnd,
            (monthCore s b debts).interestPaid,
            (monthCore s b debts).principalPaid⟩ : ScheduleRow)]).length →
          ((sched ++
            [(⟨months + 1, (monthCore s b debts).totalBalanceEnd,
              (monthCore s b debts).interestPaid,
              (monthCore s b debts).principalPaid⟩ : ScheduleRow)]).getD k dummyRow).month =
            k + 1 := by
        intro k hk
        rcases lt_or_ge k sched.length with hks | hks
        · rw [List.getD_eq_getElem _ _ (by rw [List.length_append]; omega),
            List.getElem_append_left hks, ← List.getD_eq_getElem _ _ hks]
          exact hnum k hks
        · have hkeq : k = sched.length := by
            rw [List.length_append, List.length_singleton] at hk
            omega
          rw [List.getD_eq_getElem _ _ hk, List.getElem_concat_length _ _ _ hkeq]
          dsimp only
          omega
      split
      · split
        · exact ⟨hlen2, hnum2⟩
        · exact ih _ _ _ _ hlen2 hnum2
      · exact ⟨hlen, hnum⟩

/-- Across the loop, the recorded principal is at least the total-balance
drop from entry state to exit state. -/
theorem runLoop_principal_sum (s : Strategy) (b : ℚ) (fuel months : ℕ) (ti : ℚ)
    (sched : List ScheduleRow) (debts : List NumericDebt) :
    totalBalance debts -
        totalBalance (runLoop s b fuel months ti sched debts).2.2.2 ≤
      ((runLoop s b fuel months ti sched debts).2.2.1.map
          fun row => row.principalPaid).sum -
        (sched.map fun row => row.principalPaid).sum := by
  induction fuel generalizing months ti sched debts with
  | zero => simp [runLoop]
  | succ n ih =>
      simp only [runLoop]
      split
      · have hstep := monthCore_principal_ge s b debts
        rw [monthCore_totalBalanceEnd_eq] at hstep
        have happ : ((sched ++
            [(⟨months + 1, (monthCore s b debts).totalBalanceEnd,
              (monthCore s b debts).interestPaid,
              (monthCore s b debts).principalPaid⟩ : ScheduleRow)]).map
              fun row => row.principalPaid).sum =
            (sched.map fun row => row.principalPaid).sum +
              (monthCore s b debts).principalPaid := by
          rw [List.map_append, List.sum_append]
          simp
        split
        · dsimp only
          rw [happ]
          linarith
        · have hrec := ih (months + 1) (ti + (monthCore s b debts).interestPaid)
            (sched ++ [(⟨months + 1, (monthCore s b debts).totalBalanceEnd,
              (monthCore s b debts).interestPaid,
              (monthCore s b debts).principalPaid⟩ : ScheduleRow)])
            (monthCore s b debts).debts
          rw [happ] at hrec
          linarith
      · dsimp only
        simp

/-- If the loop exits strictly below the cap, every debt balance in the
final state is at most `eps` (fuel is exactly `cap - months`). -/
theorem runLoop_final_le_eps (s : Strategy) (b : ℚ) (fuel months : ℕ) (ti : ℚ)
    (sched : List ScheduleRow) (debts : List NumericDebt)
    (hm : months + fuel = MAX_MONTHS)
    (hlt : (runLoop s b fuel months ti sched debts).1 < MAX_MONTHS) :
    ∀ d ∈ (runLoop s b fuel months ti sched debts).2.2.2, d.balance ≤ eps := by
  induction fuel generalizing months ti sched debts with
  | zero =>
      exfalso
      simp only [runLoop] at hlt
      omega
  | succ n ih =>
      simp only [runLoop] at hlt ⊢
      by_cases hact : (debts.any fun d => decide (eps < d.balance)) = true
      · rw [if_pos hact] at hlt ⊢
        by_cases hbreak : (monthCore s b debts).totalBalanceEnd ≤ eps
        · rw [if_pos hbreak] at hlt ⊢
          intro d hd
          replace hd : d ∈ (monthCore s b debts).debts := hd
          calc d.balance ≤ totalBalance (monthCore s b debts).debts :=
                balance_le_totalBalance _ (monthCore_balance_nonneg s b debts) d hd
            _ = (monthCore s b debts).totalBalanceEnd :=
                (monthCore_totalBalanceEnd_eq s b debts).symm
            _ ≤ eps := hbreak
        · rw [if_neg hbreak] at hlt ⊢
          refine ih (months + 1) _ _ _ ?_ hlt
          omega
      · rw [if_neg hact] at hlt ⊢
        intro d hd
        replace hd : d ∈ debts := hd
        by_contra hgt
        apply hact
        rw [List.any_eq_true]
        exact ⟨d, hd, by simpa using not_le.mp hgt⟩

theorem runLoop_debts_length (s : Strategy) (b : ℚ) (fuel months : ℕ) (ti : ℚ)
    (sched : List ScheduleRow) (debts : List NumericDebt) :
    (runLoop s b fuel months ti sched debts).2.2.2.length = debts.length := by
  induction fuel generalizing months ti sched debts with
  | zero => rfl
  | succ n ih =>
      simp only [runLoop]
      split
      · split
        · exact monthCore_debts_length s b debts
        · rw [ih]
          exact monthCore_debts_length s b debts
      · rfl

/-!
## Theorems
-/

/-- C2: for a single debt with balance 1200, apr 0, minPayment 100 and a
monthly budget of 100, `calculatePlan` succeeds with exactly 12 months,
zero total interest, and a final schedule row whose `totalBalanceEnd` is
0, under every strategy. -/
theorem c2_single_debt_twelve_months :
    ∀ s : Strategy,
      ((calculatePlan [⟨1, "Card A", some 1200, some 0, some 100⟩] (some 100) s).toOption.map
          fun r => (r.months, r.totalInterest,
            r.schedule.getLast?.map fun row => row.totalBalanceEnd)) =
        some (12, 0, some 0) := by
  intro s
  cases s
  · exact of_decide_eq_true (by with_unfolding_all rfl)
  · exact of_decide_eq_true (by with_unfolding_all rfl)
  · exact of_decide_eq_true (by with_unfolding_all rfl)

/-- C6: whenever the parsed budget is positive and the filtered debts'
minimum payments sum to more than the budget plus the `1e-6` tolerance,
`calculatePlan` fails with the budget-below-minimums error (so no
schedule is produced). -/
theorem c6_budget_below_minimums (input : List Debt) (budget : Option ℚ)
    (s : Strategy) (hb : 0 < parseNum budget)
    (hm : parseNum budget + tol <
      ((cloneNumericDebts input).map fun d => d.minPayment).sum) :
    calculatePlan input budget s = .error belowMinsErr := by
  unfold calculatePlan
  rw [if_neg (not_le.mpr hb)]
  have hne : ¬ (cloneNumericDebts input).isEmpty := by
    intro h
    rw [List.isEmpty_iff] at h
    rw [h] at hm
    simp only [List.map_nil, List.sum_nil] at hm
    have : (0 : ℚ) < tol := by norm_num [tol]
    linarith
  rw [if_neg hne, if_pos hm]

/-- C6 witness: one debt with minimum payment 50 against a budget of 40. -/
theorem c6_budget_below_minimums_witness :
    calculatePlan [⟨1, "A", some 500, some 0, some 50⟩] (some 40) .warrior =
      .error belowMinsErr :=
  c6_budget_below_minimums [⟨1, "A", some 500, some 0, some 50⟩] (some 40) .warrior
    (of_decide_eq_true (by with_unfolding_all rfl))
    (of_decide_eq_true (by with_unfolding_all rfl))

/-- C7: whenever the parsed budget is positive but filtering (dropping
debts with non-positive balance or non-positive minimum payment) leaves
no debt, `calculatePlan` fails with the no-payable-debts error rather
than succeeding. -/
theorem c7_no_payable_debts (input : List Debt) (budget : Option ℚ)
    (s : Strategy) (hb : 0 < parseNum budget)
    (he : cloneNumericDebts input = []) :
    calculatePlan input budget s = .error noDebtsErr := by
  unfold calculatePlan
  rw [if_neg (not_le.mpr hb), he]
  rfl

/-- C7 witness: a single malformed debt (zero balance) is filtered out. -/
theorem c7_no_payable_debts_witness :
    calculatePlan [⟨1, "A", some 0, some 10, some 25⟩] (some 100) .rebel =
      .error noDebtsErr :=
  c7_no_payable_debts [⟨1, "A", some 0, some 10, some 25⟩] (some 100) .rebel
    (of_decide_eq_true (by with_unfolding_all rfl))
    (of_decide_eq_true (by with_unfolding_all rfl))

/-- C1 counterexample: two debts, A with balance 100 / apr 120 /
minPayment 5 and B with balance 50 / apr 0 / minPayment 50, with budget
55.5 under the rebel strategy.  The plan succeeds, but the schedule's
`principalPaid` sums to 154.5 while the initial total balance of the
filtered debts is 150: month 1 pays debt A less than its accrued
interest, so principal (floored at 0 per debt) overcounts by the
shortfall, violating the 1e-6-per-debt tolerance (here 2e-6) by 4.5. -/
theorem c1_counterexample :
    ((calculatePlan
        [⟨1, "A", some 100, some 120, some 5⟩, ⟨2, "B", some 50, some 0, some 50⟩]
        (some (111 / 2)) .rebel).toOption.map
      fun r => (r.schedule.map fun row => row.principalPaid).sum) = some (309 / 2) ∧
    totalBalance (cloneNumericDebts
      [⟨1, "A", some 100, some 120, some 5⟩, ⟨2, "B", some 50, some 0, some 50⟩]) = 150 ∧
    ¬ (|(309 / 2 : ℚ) - 150| ≤ 2 * (1 / 1000000)) :=
  of_decide_eq_true (by with_unfolding_all rfl)

/-- C4 counterexample: same two debts (APRs 120 and 0, both
non-negative) and budget 55.5, which covers the minimum payments
(5 + 50 = 55).  In the first simulated month debt A's balance rises from
100 to 104.5 (its payment 5.5 is below its accrued interest 10), so a
debt's balance is not non-increasing month-over-month. -/
theorem c4_counterexample :
    ((cloneNumericDebts
        [⟨1, "A", some 100, some 120, some 5⟩, ⟨2, "B", some 50, some 0, some 50⟩]).map
      fun d => d.apr) = [120, 0] ∧
    ((cloneNumericDebts
        [⟨1, "A", some 100, some 120, some 5⟩, ⟨2, "B", some 50, some 0, some 50⟩]).map
      fun d => d.minPayment).sum ≤ parseNum (some (111 / 2)) ∧
    ((monthStates .rebel (111 / 2)
        (cloneNumericDebts
          [⟨1, "A", some 100, some 120, some 5⟩, ⟨2, "B", some 50, some 0, some 50⟩]) 0).getD
      0 dummyDebt).balance = 100 ∧
    ((monthStates .rebel (111 / 2)
        (cloneNumericDebts
          [⟨1, "A", some 100, some 120, some 5⟩, ⟨2, "B", some 50, some 0, some 50⟩]) 1).getD
      0 dummyDebt).balance = 209 / 2 ∧
    ¬ ((209 / 2 : ℚ) ≤ 100) :=
  of_decide_eq_true (by with_unfolding_all rfl)

/-- C5 counterexample: debts C (balance 5, apr 1000, minPayment 100) and
D (balance 100, apr 1, minPayment 10) with budget 30 under the wizard
strategy.  Debt C is active (balance 5 > 0.01) and has the largest
interest-in-dollars (25/6 versus 1/12), yet the first unit of leftover
budget goes to debt D: C's minimum due already covers its full payoff,
so C's payment stays at its minimum due while D's payment rises. -/
theorem c5_counterexample :
    ((cloneNumericDebts [⟨1, "C", some 5, some 1000, some 100⟩,
        ⟨2, "D", some 100, some 1, some 10⟩]).map fun d => (d.balance, interestOf d)) =
      [(5, 25 / 6), (100, 1 / 12)] ∧
    ((cloneNumericDebts [⟨1, "C", some 5, some 1000, some 100⟩,
        ⟨2, "D", some 100, some 1, some 10⟩]).map minDueOf) = [55 / 6, 10] ∧
    (let ws := cloneNumericDebts [⟨1, "C", some 5, some 1000, some 100⟩,
        ⟨2, "D", some 100, some 1, some 10⟩]
     let ints := ws.map interestOf
     let mins := ws.map minDueOf
     let leftover := max 0 (30 - mins.sum)
     (eps < leftover ∧ (25 / 6 : ℚ) > 1 / 12 ∧
      (allocPass ws ints (sortItems .wizard (priorityItems ws)) mins leftover).payments =
        [55 / 6, 125 / 6])) :=
  of_decide_eq_true (by with_unfolding_all rfl)

/-- C3: every debt's balance is non-negative after every simulated month
(along the whole trajectory of working states starting from the filtered
debts), and every schedule row of a successful plan has a non-negative
`totalBalanceEnd`. -/
theorem c3_balances_nonneg (input : List Debt) (budget : Option ℚ)
    (s : Strategy) (k : ℕ) :
    (∀ d ∈ monthStates s (parseNum budget) (cloneNumericDebts input) k,
        0 ≤ d.balance) ∧
    ∀ r, calculatePlan input budget s = .ok r →
      ∀ row ∈ r.schedule, 0 ≤ row.totalBalanceEnd := by
  constructor
  · exact monthStates_balance_nonneg s (parseNum budget) (cloneNumericDebts input)
      (fun d hd => (cloneNumericDebts_pos input d hd).1.le) k
  · intro r hr row hrow
    obtain ⟨-, -, -, hre⟩ := calculatePlan_ok_elim hr
    have hsched : r.schedule =
        (runLoop s (parseNum budget) MAX_MONTHS 0 0 [] (cloneNumericDebts input)).2.2.1 := by
      rw [hre]
    rw [hsched] at hrow
    exact runLoop_rows_nonneg s (parseNum budget) MAX_MONTHS 0 0 []
      (cloneNumericDebts input) (fun row h => absurd h (List.not_mem_nil row)) row hrow

set_option maxRecDepth 4000 in
/-- C3 witness: a concrete state along a concrete trajectory. -/
theorem c3_balances_nonneg_witness :
    0 ≤ ((monthStates .warrior (parseNum (some 100))
        (cloneNumericDebts [⟨1, "A", some 1200, some 0, some 100⟩]) 3).getD
      0 dummyDebt).balance :=
  (c3_balances_nonneg [⟨1, "A", some 1200, some 0, some 100⟩] (some 100) .warrior 3).1
    _ (of_decide_eq_true (by with_unfolding_all rfl))

/-- C10: for every success result, `months` equals the schedule length and
the `k`-th row (0-based) carries month number `k + 1`. -/
theorem c10_months_eq_length (input : List Debt) (budget : Option ℚ)
    (s : Strategy) (r : PlanResult)
    (h : calculatePlan input budget s = .ok r) :
    r.months = r.schedule.length ∧
    ∀ k, k < r.schedule.length → (r.schedule.getD k dummyRow).month = k + 1 := by
  obtain ⟨-, -, -, hre⟩ := calculatePlan_ok_elim h
  have hnum := runLoop_schedule_numbering s (parseNum budget) MAX_MONTHS 0 0 []
    (cloneNumericDebts input) rfl (fun k hk => absurd hk (by simp))
  rw [hre]
  exact ⟨hnum.1.symm, hnum.2⟩

set_option maxRecDepth 4000 in
/-- C10 witness: a one-month plan. -/
theorem c10_months_eq_length_witness :
    (⟨1, 0, .warrior, [⟨1, 0, 0, 100⟩]⟩ : PlanResult).months =
      (⟨1, 0, .warrior, [⟨1, 0, 0, 100⟩]⟩ : PlanResult).schedule.length ∧
    ∀ k, k < (⟨1, 0, .warrior, [⟨1, 0, 0, 100⟩]⟩ : PlanResult).schedule.length →
      ((⟨1, 0, .warrior, [⟨1, 0, 0, 100⟩]⟩ : PlanResult).schedule.getD k dummyRow).month =
        k + 1 :=
  c10_months_eq_length [⟨1, "A", some 100, some 0, some 100⟩] (some 100) .warrior _
    (of_decide_eq_true (by with_unfolding_all rfl))

/-- C1 (amended): for every success result, the schedule's summed
`principalPaid` is at least the filtered debts' initial total balance
minus `eps` (0.01, the engine's activity threshold) per debt.  The
original claim's two-sided 1e-6-per-debt tolerance fails: leftover dust
below `eps` can stay unretired, and months in which a debt's payment
falls below its accrued interest make the principal sum exceed the
initial balance by the accumulated shortfall (see the counterexample). -/
theorem c1_principal_sum_ge (input : List Debt) (budget : Option ℚ)
    (s : Strategy) (r : PlanResult)
    (h : calculatePlan input budget s = .ok r) :
    totalBalance (cloneNumericDebts input) -
        eps * (cloneNumericDebts input).length ≤
      (r.schedule.map fun row => row.principalPaid).sum := by
  obtain ⟨-, -, hlt, hre⟩ := calculatePlan_ok_elim h
  have h1 := runLoop_principal_sum s (parseNum budget) MAX_MONTHS 0 0 []
    (cloneNumericDebts input)
  have h2 : ∀ d ∈ (runLoop s (parseNum budget) MAX_MONTHS 0 0 []
      (cloneNumericDebts input)).2.2.2, d.balance ≤ eps :=
    runLoop_final_le_eps s (parseNum budget) MAX_MONTHS 0 0 []
      (cloneNumericDebts input) (by omega) hlt
  have h3 : totalBalance (runLoop s (parseNum budget) MAX_MONTHS 0 0 []
      (cloneNumericDebts input)).2.2.2 ≤
      ((runLoop s (parseNum budget) MAX_MONTHS 0 0 []
        (cloneNumericDebts input)).2.2.2.length : ℚ) * eps := by
    rw [totalBalance]
    have hs := List.sum_le_card_nsmul ((runLoop s (parseNum budget) MAX_MONTHS 0 0 []
        (cloneNumericDebts input)).2.2.2.map fun d => d.balance) eps ?_
    · rw [List.length_map, nsmul_eq_mul] at hs
      exact hs
    · intro x hx
      simp only [List.mem_map] at hx
      obtain ⟨d, hd, rfl⟩ := hx
      exact h2 d hd
  have h4 : ((runLoop s (parseNum budget) MAX_MONTHS 0 0 []
      (cloneNumericDebts input)).2.2.2.length : ℚ) =
      ((cloneNumericDebts input).length : ℚ) := by
    rw [runLoop_debts_length]
  rw [hre]
  simp only [List.map_nil, List.sum_nil, sub_zero] at h1
  rw [h4] at h3
  dsimp only
  linarith

set_option maxRecDepth 4000 in
/-- C1 witness: a one-month plan retiring 100 of an initial balance 100. -/
theorem c1_principal_sum_ge_witness :
    totalBalance (cloneNumericDebts [⟨1, "A", some 100, some 0, some 100⟩]) -
        eps * (cloneNumericDebts [⟨1, "A", some 100, some 0, some 100⟩]).length ≤
      ((⟨1, 0, .warrior, [⟨1, 0, 0, 100⟩]⟩ : PlanResult).schedule.map
        fun row => row.principalPaid).sum :=
  c1_principal_sum_ge [⟨1, "A", some 100, some 0, some 100⟩] (some 100) .warrior _
    (of_decide_eq_true (by with_unfolding_all rfl))

theorem monthCore_fields (s : Strategy) (b : ℚ) (debts : List NumericDebt)
    (i : ℕ) (h : i < debts.length) :
    ((monthCore s b debts).debts.getD i dummyDebt).apr =
        (debts.getD i dummyDebt).apr ∧
    ((monthCore s b debts).debts.getD i dummyDebt).minPayment =
        (debts.getD i dummyDebt).minPayment := by
  rw [monthCore_debts_getD s b debts i h]
  exact ⟨rfl, rfl⟩

theorem monthStates_fields (s : Strategy) (b : ℚ) (debts : List NumericDebt)
    (k i : ℕ) (h : i < debts.length) :
    ((monthStates s b debts k).getD i dummyDebt).apr =
        (debts.getD i dummyDebt).apr ∧
    ((monthStates s b debts k).getD i dummyDebt).minPayment =
        (debts.getD i dummyDebt).minPayment := by
  induction k with
  | zero => exact ⟨rfl, rfl⟩
  | succ n ih =>
      rw [monthStates_succ]
      have hlen : i < (monthStates s b debts n).length := by
        rw [monthStates_length]
        exact h
      have hf := monthCore_fields s b (monthStates s b debts n) i hlen
      exact ⟨hf.1.trans ih.1, hf.2.trans ih.2⟩

/-- One-month step bound: a debt whose minimum payment covers its accrued
interest this month cannot see its balance rise. -/
theorem monthCore_balance_le_of_cover (s : Strategy) (b : ℚ)
    (debts : List NumericDebt) (i : ℕ) (h : i < debts.length)
    (h0 : 0 ≤ (debts.getD i dummyDebt).balance)
    (hcov : (debts.getD i dummyDebt).balance *
        ((debts.getD i dummyDebt).apr / 100 / 12) ≤
      (debts.getD i dummyDebt).minPayment) :
    ((monthCore s b debts).debts.getD i dummyDebt).balance ≤
      (debts.getD i dummyDebt).balance := by
  rw [monthCore_debts_getD s b debts i h]
  dsimp only
  by_cases hact : (debts.getD i dummyDebt).balance ≤ eps
  · rw [interestByIndex_getD debts i h, totalPayment_inactive s b debts i hact,
      minDueByIndex_getD debts i h, interestOf, if_pos hact, minDueOf, if_pos hact]
    split
    · exact h0
    · linarith
  · have hint : (interestByIndex debts).getD i 0 =
        (debts.getD i dummyDebt).balance *
          ((debts.getD i dummyDebt).apr / 100 / 12) := by
      rw [interestByIndex_getD debts i h, interestOf, if_neg hact]
    have hmin : (minDueByIndex debts).getD i 0 =
        min (debts.getD i dummyDebt).minPayment
          ((debts.getD i dummyDebt).balance +
            (debts.getD i dummyDebt).balance *
              ((debts.getD i dummyDebt).apr / 100 / 12)) := by
      rw [minDueByIndex_getD debts i h, minDueOf, if_neg hact, interestOf, if_neg hact]
    have hge : (debts.getD i dummyDebt).balance *
        ((debts.getD i dummyDebt).apr / 100 / 12) ≤
        (minDueByIndex debts).getD i 0 := by
      rw [hmin]
      exact le_min hcov (by linarith)
    have hpay := minDue_le_totalPayment s b debts i
    rw [hint]
    split
    · exact h0
    · linarith

/-- Along the trajectory, balances stay between 0 and their initial
values whenever every debt's minimum payment covers its initial monthly
interest. -/
theorem monthStates_balance_le_init (s : Strategy) (b : ℚ)
    (debts : List NumericDebt)
    (h0 : ∀ d ∈ debts, 0 ≤ d.balance)
    (hapr : ∀ d ∈ debts, 0 ≤ d.apr)
    (hcov : ∀ d ∈ debts, d.balance * (d.apr / 100 / 12) ≤ d.minPayment)
    (k i : ℕ) (h : i < debts.length) :
    ((monthStates s b debts k).getD i dummyDebt).balance ≤
      (debts.getD i dummyDebt).balance := by
  have hmem : debts.getD i dummyDebt ∈ debts := by
    rw [List.getD_eq_getElem _ _ h]
    exact List.getElem_mem h
  induction k with
  | zero => exact le_rfl
  | succ n ih =>
      rw [monthStates_succ]
      have hlen : i < (monthStates s b debts n).length := by
        rw [monthStates_length]
        exact h
      have hmemn : (monthStates s b debts n).getD i dummyDebt ∈
          monthStates s b debts n := by
        rw [List.getD_eq_getElem _ _ hlen]
        exact List.getElem_mem hlen
      have hstep := monthCore_balance_le_of_cover s b (monthStates s b debts n) i hlen
        (monthStates_balance_nonneg s b debts h0 n _ hmemn) ?_
      · exact hstep.trans ih
      · have hf := monthStates_fields s b debts n i h
        rw [hf.1, hf.2]
        have hr : 0 ≤ (debts.getD i dummyDebt).apr / 100 / 12 := by
          have := hapr _ hmem
          positivity
        calc ((monthStates s b debts n).getD i dummyDebt).balance *
              ((debts.getD i dummyDebt).apr / 100 / 12) ≤
            (debts.getD i dummyDebt).balance *
              ((debts.getD i dummyDebt).apr / 100 / 12) :=
              mul_le_mul_of_nonneg_right ih hr
          _ ≤ (debts.getD i dummyDebt).minPayment := hcov _ hmem

/-- C4 (amended): with non-negative balances and APRs, a budget covering
the minimum payments, and additionally each debt's minimum payment at
least its initial monthly interest (balance × apr/100/12), every debt's
balance is non-increasing from each simulated month to the next, under
every strategy.  Without the additional proviso the original claim fails
(see counterexample): a payment below the accrued interest makes the
balance grow. -/
theorem c4_balances_nonincreasing (debts : List NumericDebt) (b : ℚ)
    (s : Strategy)
    (h0 : ∀ d ∈ debts, 0 ≤ d.balance)
    (hapr : ∀ d ∈ debts, 0 ≤ d.apr)
    (_hbud : (debts.map fun d => d.minPayment).sum ≤ b)
    (hcov : ∀ d ∈ debts, d.balance * (d.apr / 100 / 12) ≤ d.minPayment)
    (k i : ℕ) (h : i < debts.length) :
    ((monthStates s b debts (k + 1)).getD i dummyDebt).balance ≤
      ((monthStates s b debts k).getD i dummyDebt).balance := by
  have hmem : debts.getD i dummyDebt ∈ debts := by
    rw [List.getD_eq_getElem _ _ h]
    exact List.getElem_mem h
  have hlen : i < (monthStates s b debts k).length := by
    rw [monthStates_length]
    exact h
  have hmemk : (monthStates s b debts k).getD i dummyDebt ∈
      monthStates s b debts k := by
    rw [List.getD_eq_getElem _ _ hlen]
    exact List.getElem_mem hlen
  rw [monthStates_succ]
  apply monthCore_balance_le_of_cover s b (monthStates s b debts k) i hlen
    (monthStates_balance_nonneg s b debts h0 k _ hmemk)
  have hf := monthStates_fields s b debts k i h
  rw [hf.1, hf.2]
  have hr : 0 ≤ (debts.getD i dummyDebt).apr / 100 / 12 := by
    have := hapr _ hmem
    positivity
  calc ((monthStates s b debts k).getD i dummyDebt).balance *
        ((debts.getD i dummyDebt).apr / 100 / 12) ≤
      (debts.getD i dummyDebt).balance *
        ((debts.getD i dummyDebt).apr / 100 / 12) :=
        mul_le_mul_of_nonneg_right
          (monthStates_balance_le_init s b debts h0 hapr hcov k i h) hr
    _ ≤ (debts.getD i dummyDebt).minPayment := hcov _ hmem

set_option maxRecDepth 4000 in
/-- C4 witness: first month of a zero-APR debt. -/
theorem c4_balances_nonincreasing_witness :
    ((monthStates .warrior 100
        (cloneNumericDebts [⟨1, "A", some 1200, some 0, some 100⟩]) 1).getD
      0 dummyDebt).balance ≤
    ((monthStates .warrior 100
        (cloneNumericDebts [⟨1, "A", some 1200, some 0, some 100⟩]) 0).getD
      0 dummyDebt).balance :=
  c4_balances_nonincreasing
    (cloneNumericDebts [⟨1, "A", some 1200, some 0, some 100⟩]) 100 .warrior
    (of_decide_eq_true (by with_unfolding_all rfl))
    (of_decide_eq_true (by with_unfolding_all rfl))
    (of_decide_eq_true (by with_unfolding_all rfl))
    (of_decide_eq_true (by with_unfolding_all rfl))
    0 0 (of_decide_eq_true (by with_unfolding_all rfl))

/-- Replacing a parse result by the engine's sanitised value: a
non-finite (`none`) parse becomes the finite number 0, a finite parse is
kept. -/
def sanitizeField (v : Option ℚ) : Option ℚ := some (parseNum v)

/-- Sanitising all three numeric fields of a raw debt record. -/
def sanitizeDebt (d : Debt) : Debt :=
  { d with
    balance := sanitizeField d.balance
    apr := sanitizeField d.apr
    minPayment := sanitizeField d.minPayment }

/-- C9: a balance, apr, minPayment or budget string parsing to `NaN` or a
non-finite number is treated as the finite number 0 — `calculatePlan` is
unchanged when every non-finite parse result is replaced by 0 — and every
debt surviving the filter has clamped fields (balance > 0, apr ≥ 0,
minPayment > 0), so only finite non-negative values reach the simulation
arithmetic (numbers are modelled as exact rationals, `none` standing for
a non-finite parse, hence no `NaN` can appear in a success result). -/
theorem c9_nonfinite_as_zero (input : List Debt) (budget : Option ℚ)
    (s : Strategy) :
    calculatePlan input budget s =
      calculatePlan (input.map sanitizeDebt) (sanitizeField budget) s ∧
    ∀ d ∈ cloneNumericDebts input,
      0 < d.balance ∧ 0 ≤ d.apr ∧ 0 < d.minPayment := by
  constructor
  · have hclone : cloneNumericDebts (input.map sanitizeDebt) =
        cloneNumericDebts input := by
      rw [cloneNumericDebts, cloneNumericDebts, List.map_map]
      rfl
    rw [calculatePlan, calculatePlan, hclone]
    rfl
  · exact cloneNumericDebts_pos input

/-- C9 witness: a `NaN` balance (first debt) behaves as a 0 balance. -/
theorem c9_nonfinite_as_zero_witness :
    calculatePlan [⟨1, "A", none, some 0, some 100⟩] (some 100) .warrior =
      calculatePlan [⟨1, "A", some 0, some 0, some 100⟩] (some 100) .warrior :=
  (c9_nonfinite_as_zero [⟨1, "A", none, some 0, some 100⟩] (some 100) .warrior).1

/-- Room left for extra payment when payments still equal the minimum
dues: `balance + interest - minDue` at an item's index. -/
def roomAtMins (debts : List NumericDebt) (it : PriorityItem) : ℚ :=
  (debts.getD it.i dummyDebt).balance + (interestByIndex debts).getD it.i 0 -
    (minDueByIndex debts).getD it.i 0

theorem wizardLE_iff (a b : PriorityItem) :
    stratLE .wizard a b = true ↔
      (b.interest < a.interest ∨ (b.interest = a.interest ∧ b.apr ≤ a.apr)) := by
  simp only [stratLE]
  by_cases h : b.interest = a.interest
  · rw [if_neg (fun hne => hne h)]
    simp only [decide_eq_true_eq, h, lt_irrefl, false_or, true_and]
  · rw [if_pos h]
    simp only [decide_eq_true_eq]
    constructor
    · exact fun hlt => Or.inl hlt
    · rintro (hlt | ⟨heq, -⟩)
      · exact hlt
      · exact absurd heq h

theorem wizardLE_total (a b : PriorityItem) :
    stratLE .wizard a b = true ∨ stratLE .wizard b a = true := by
  rw [wizardLE_iff, wizardLE_iff]
  rcases lt_trichotomy a.interest b.interest with h | h | h
  · exact Or.inr (Or.inl h)
  · rcases le_total b.apr a.apr with h2 | h2
    · exact Or.inl (Or.inr ⟨h.symm, h2⟩)
    · exact Or.inr (Or.inr ⟨h, h2⟩)
  · exact Or.inl (Or.inl h)

theorem wizardLE_trans (a b c : PriorityItem)
    (hab : stratLE .wizard a b = true) (hbc : stratLE .wizard b c = true) :
    stratLE .wizard a c = true := by
  rw [wizardLE_iff] at hab hbc ⊢
  rcases hab with h1 | ⟨h1, h1a⟩ <;> rcases hbc with h2 | ⟨h2, h2a⟩
  · exact Or.inl (lt_trans h2 h1)
  · exact Or.inl (h2 ▸ h1)
  · exact Or.inl (h1 ▸ h2)
  · exact Or.inr ⟨h2.trans h1, h2a.trans h1a⟩

theorem find?_decomp {α : Type} (p : α → Bool) (l : List α) (a : α)
    (h : l.find? p = some a) :
    ∃ l1 l2, l = l1 ++ a :: l2 ∧ ∀ x ∈ l1, p x = false := by
  induction l with
  | nil => exact absurd h (by simp)
  | cons b t ih =>
      rw [List.find?_cons] at h
      cases hb : p b with
      | true =>
          rw [hb] at h
          obtain rfl : b = a := by
            injection h
          exact ⟨[], t, rfl, by intro x hx; exact absurd hx (List.not_mem_nil x)⟩
      | false =>
          rw [hb] at h
          obtain ⟨l1, l2, hsplit, hall⟩ := ih h
          refine ⟨b :: l1, l2, by rw [hsplit]; rfl, ?_⟩
          intro x hx
          rcases List.mem_cons.mp hx with rfl | hx2
          · exact hb
          · exact hall x hx2

theorem priorityItems_indices_nodup (debts : List NumericDebt) :
    ((priorityItems debts).map fun p => p.i).Nodup := by
  have h1 : ((priorityItems debts).map fun p => p.i).Sublist
      (((debts.enum.map fun p =>
        ({ i := p.1, balance := p.2.balance, apr := p.2.apr,
           interest := p.2.apr / 100 / 12 * p.2.balance } : PriorityItem))).map
        fun p => p.i) :=
    List.Sublist.map _ (List.filter_sublist _)
  apply List.Nodup.sublist h1
  rw [List.map_map]
  have h2 : ((fun p : PriorityItem => p.i) ∘ fun p : ℕ × NumericDebt =>
      ({ i := p.1, balance := p.2.balance, apr := p.2.apr,
         interest := p.2.apr / 100 / 12 * p.2.balance } : PriorityItem)) =
      Prod.fst := rfl
  rw [h2, List.enum_map_fst]
  exact List.nodup_range _

theorem allocStep_getD_ne (debts : List NumericDebt) (ints : List ℚ)
    (s : AllocState) (item : PriorityItem) (j : ℕ) (h : item.i ≠ j) :
    (allocStep debts ints s item).payments.getD j 0 = s.payments.getD j 0 := by
  simp only [allocStep]
  split
  · rfl
  split
  · rfl
  split
  · rfl
  rw [getD_set_other _ h]

theorem allocFold_getD_untouched (debts : List NumericDebt) (ints : List ℚ)
    (l : List PriorityItem) (s : AllocState) (j : ℕ)
    (h : ∀ x ∈ l, x.i ≠ j) :
    ((l.foldl (allocStep debts ints) s).payments).getD j 0 =
      s.payments.getD j 0 := by
  induction l generalizing s with
  | nil => rfl
  | cons a t ih =>
      rw [List.foldl_cons, ih _ (fun x hx => h x (List.mem_cons_of_mem _ hx)),
        allocStep_getD_ne debts ints s a j (h a (List.mem_cons_self a t))]

/-- Items with no room (at minimum-due payments) are skipped without
changing the allocation state. -/
theorem allocFold_skip (debts : List NumericDebt) (l1 : List PriorityItem)
    (leftover : ℚ)
    (hskip : ∀ x ∈ l1, roomAtMins debts x ≤ eps) :
    l1.foldl (allocStep debts (interestByIndex debts))
      ⟨minDueByIndex debts, leftover, 0⟩ =
      ⟨minDueByIndex debts, leftover, 0⟩ := by
  induction l1 with
  | nil => rfl
  | cons a t ih =>
      have hstep : allocStep debts (interestByIndex debts)
          ⟨minDueByIndex debts, leftover, 0⟩ a =
          ⟨minDueByIndex debts, leftover, 0⟩ := by
        simp only [allocStep]
        split
        · rfl
        rw [if_pos]
        exact hskip a (List.mem_cons_self a t)
      rw [List.foldl_cons, hstep, ih (fun x hx => hskip x (List.mem_cons_of_mem _ hx))]

/-- C5 (amended): in a simulated month under the wizard strategy with
positive leftover, let `m` be the first item of the sorted priority list
with room for extra payment (`roomAtMins > eps`).  Then `m` has the
largest interest-in-dollars — ties broken by higher APR — among ALL
priority items with room, and the first allocation pass assigns `m`
exactly `min(room, leftover)` on top of its minimum due.  The original
claim (largest interest among all active debts) fails when the
largest-interest active debt's minimum due already covers its payoff
(see counterexample); such a debt receives nothing. -/
theorem c5_wizard_first_extra (debts : List NumericDebt) (b : ℚ)
    (m : PriorityItem)
    (hleft : eps < max 0 (b - (minDueByIndex debts).sum))
    (hfind : (sortItems .wizard (priorityItems debts)).find?
        (fun it => decide (eps < roomAtMins debts it)) = some m) :
    (∀ y ∈ priorityItems debts, eps < roomAtMins debts y →
      y.interest < m.interest ∨ (y.interest = m.interest ∧ y.apr ≤ m.apr)) ∧
    (allocPass debts (interestByIndex debts)
        (sortItems .wizard (priorityItems debts)) (minDueByIndex debts)
        (max 0 (b - (minDueByIndex debts).sum))).payments.getD m.i 0 =
      (minDueByIndex debts).getD m.i 0 +
        min (roomAtMins debts m) (max 0 (b - (minDueByIndex debts).sum)) := by
  set L := max 0 (b - (minDueByIndex debts).sum) with hL
  have hroomm : eps < roomAtMins debts m := by
    have := List.find?_some hfind
    simpa using this
  obtain ⟨l1, l2, hsplit, hfail⟩ := find?_decomp _ _ _ hfind
  have hskip1 : ∀ x ∈ l1, roomAtMins debts x ≤ eps := by
    intro x hx
    have := hfail x hx
    simpa using this
  haveI htot : IsTotal PriorityItem fun a c => stratLE .wizard a c = true :=
    ⟨wizardLE_total⟩
  haveI htr : IsTrans PriorityItem fun a c => stratLE .wizard a c = true :=
    ⟨wizardLE_trans⟩
  have hsorted : List.Sorted (fun a c => stratLE .wizard a c = true)
      (sortItems .wizard (priorityItems debts)) :=
    List.sorted_insertionSort _ _
  rw [hsplit] at hsorted
  have hperm : (sortItems .wizard (priorityItems debts)).Perm
      (priorityItems debts) := List.perm_insertionSort _ _
  -- the index of m is in range and m's debt is active
  have hmlen : m.i < debts.length := by
    by_contra hge
    push_neg at hge
    have e1 : debts.getD m.i dummyDebt = dummyDebt := List.getD_eq_default _ _ hge
    have e2 : (interestByIndex debts).getD m.i 0 = 0 :=
      List.getD_eq_default _ _ (by rw [interestByIndex, List.length_map]; exact hge)
    have e3 : (minDueByIndex debts).getD m.i 0 = 0 :=
      List.getD_eq_default _ _ (by rw [minDueByIndex, List.length_map]; exact hge)
    rw [roomAtMins, e1, e2, e3] at hroomm
    norm_num [dummyDebt, eps] at hroomm
  have hbal : eps < (debts.getD m.i dummyDebt).balance := by
    by_contra hle
    push_neg at hle
    have e2 : (interestByIndex debts).getD m.i 0 = 0 := by
      rw [interestByIndex_getD debts m.i hmlen, interestOf, if_pos hle]
    have e3 : (minDueByIndex debts).getD m.i 0 = 0 := by
      rw [minDueByIndex_getD debts m.i hmlen, minDueOf, if_pos hle]
    rw [roomAtMins, e2, e3] at hroomm
    simp only [add_zero, sub_zero] at hroomm
    exact absurd hroomm (not_lt.mpr hle)
  constructor
  · intro y hy hyroom
    have hyin : y ∈ l1 ++ m :: l2 := by
      rw [← hsplit]
      exact (hperm.mem_iff).mpr hy
    rcases List.mem_append.mp hyin with hy1 | hy2
    · exact absurd hyroom (not_lt.mpr (hskip1 y hy1))
    · rcases List.mem_cons.mp hy2 with rfl | hy3
      · exact Or.inr ⟨rfl, le_rfl⟩
      · have hmy : stratLE .wizard m y = true := by
          have hpair := (List.pairwise_append.mp hsorted).2.1
          exact (List.pairwise_cons.mp hpair).1 y hy3
        exact (wizardLE_iff m y).mp hmy
  · -- the indices of the sorted list are pairwise distinct
    have hnodup : ((l1 ++ m :: l2).map fun p => p.i).Nodup := by
      have := priorityItems_indices_nodup debts
      have hpermi : ((l1 ++ m :: l2).map fun p => p.i).Perm
          ((priorityItems debts).map fun p => p.i) := by
        rw [← hsplit]
        exact hperm.map _
      exact hpermi.symm.nodup this
    have hl2ne : ∀ x ∈ l2, x.i ≠ m.i := by
      intro x hx
      rw [List.map_append, List.map_cons] at hnodup
      have hmid := (List.nodup_append.mp hnodup).2.1
      have := (List.nodup_cons.mp hmid).1
      intro heq
      exact this (heq ▸ List.mem_map_of_mem (fun p => p.i) hx)
    have hstepm : allocStep debts (interestByIndex debts)
        ⟨minDueByIndex debts, L, 0⟩ m =
        ⟨(minDueByIndex debts).set m.i
            ((minDueByIndex debts).getD m.i 0 + min (roomAtMins debts m) L),
          L - min (roomAtMins debts m) L, 0 + min (roomAtMins debts m) L⟩ := by
      have hc1 : ¬((debts.getD m.i dummyDebt).balance ≤ eps ∨ L ≤ eps) := by
        push_neg
        exact ⟨hbal, hleft⟩
      have hc2 : ¬((debts.getD m.i dummyDebt).balance +
          (interestByIndex debts).getD m.i 0 -
          (minDueByIndex debts).getD m.i 0 ≤ eps) := not_le.mpr hroomm
      have hc3 : ¬(min ((debts.getD m.i dummyDebt).balance +
          (interestByIndex debts).getD m.i 0 -
          (minDueByIndex debts).getD m.i 0) L ≤ 1 / 1000) := by
        apply not_le.mpr
        calc (1 : ℚ) / 1000 < eps := by norm_num [eps]
          _ < _ := lt_min hroomm hleft
      simp only [allocStep]
      rw [if_neg hc1, if_neg hc2, if_neg hc3, roomAtMins]
    rw [allocPass, hsplit, List.foldl_append, allocFold_skip debts l1 L hskip1,
      List.foldl_cons, hstepm,
      allocFold_getD_untouched debts (interestByIndex debts) l2 _ m.i hl2ne]
    dsimp only
    rw [getD_set_same]
    rw [if_pos (by rw [minDueByIndex, List.length_map]; exact hmlen)]

set_option maxRecDepth 4000 in
/-- C5 witness: one debt with room; it is trivially the wizard maximum
and receives `min(room, leftover)` in the first pass. -/
theorem c5_wizard_first_extra_witness :
    (∀ y ∈ priorityItems (cloneNumericDebts [⟨1, "A", some 100, some 0, some 10⟩]),
      eps < roomAtMins (cloneNumericDebts [⟨1, "A", some 100, some 0, some 10⟩]) y →
      y.interest < (⟨0, 100, 0, 0⟩ : PriorityItem).interest ∨
        (y.interest = (⟨0, 100, 0, 0⟩ : PriorityItem).interest ∧
          y.apr ≤ (⟨0, 100, 0, 0⟩ : PriorityItem).apr)) ∧
    (allocPass (cloneNumericDebts [⟨1, "A", some 100, some 0, some 10⟩])
        (interestByIndex (cloneNumericDebts [⟨1, "A", some 100, some 0, some 10⟩]))
        (sortItems .wizard
          (priorityItems (cloneNumericDebts [⟨1, "A", some 100, some 0, some 10⟩])))
        (minDueByIndex (cloneNumericDebts [⟨1, "A", some 100, some 0, some 10⟩]))
        (max 0 (50 - (minDueByIndex
          (cloneNumericDebts [⟨1, "A", some 100, some 0, some 10⟩])).sum))).payments.getD
      (⟨0, 100, 0, 0⟩ : PriorityItem).i 0 =
      (minDueByIndex (cloneNumericDebts [⟨1, "A", some 100, some 0, some 10⟩])).getD
        (⟨0, 100, 0, 0⟩ : PriorityItem).i 0 +
        min (roomAtMins (cloneNumericDebts [⟨1, "A", some 100, some 0, some 10⟩])
          (⟨0, 100, 0, 0⟩ : PriorityItem))
          (max 0 (50 - (minDueByIndex
            (cloneNumericDebts [⟨1, "A", some 100, some 0, some 10⟩])).sum)) :=
  c5_wizard_first_extra (cloneNumericDebts [⟨1, "A", some 100, some 0, some 10⟩]) 50
    ⟨0, 100, 0, 0⟩
    (of_decide_eq_true (by with_unfolding_all rfl))
    (of_decide_eq_true (by with_unfolding_all rfl))

theorem monthStates_shift (s : Strategy) (b : ℚ) (debts : List NumericDebt)
    (k : ℕ) :
    monthStates s b debts (k + 1) =
      monthStates s b (monthCore s b debts).debts k := by
  induction k with
  | zero => rfl
  | succ n ih => rw [monthStates_succ, ih, monthStates_succ]

/-- The loop exits with `months ≥ cap` exactly when some balance exceeds
`eps` after each number of simulated months below the remaining fuel. -/
theorem runLoop_months_ge_iff (s : Strategy) (b : ℚ) (fuel months : ℕ)
    (ti : ℚ) (sched : List ScheduleRow) (debts : List NumericDebt)
    (hm : months + fuel = MAX_MONTHS) :
    MAX_MONTHS ≤ (runLoop s b fuel months ti sched debts).1 ↔
      ∀ j, j < fuel → ∃ d ∈ monthStates s b debts j, eps < d.balance := by
  induction fuel generalizing months ti sched debts with
  | zero =>
      simp only [runLoop]
      constructor
      · intro _ j hj
        exact absurd hj (Nat.not_lt_zero j)
      · intro _
        omega
  | succ n ih =>
      simp only [runLoop]
      by_cases hact : (debts.any fun d => decide (eps < d.balance)) = true
      · have hact' : ∃ d ∈ debts, eps < d.balance := by
          simpa using List.any_eq_true.mp hact
        rw [if_pos hact]
        by_cases hbreak : (monthCore s b debts).totalBalanceEnd ≤ eps
        · rw [if_pos hbreak]
          dsimp only
          constructor
          · intro hge j hj
            have hj0 : j = 0 := by omega
            rw [hj0]
            exact hact'
          · intro hall
            rcases Nat.eq_zero_or_pos n with hn | hn
            · omega
            · exfalso
              obtain ⟨d, hd, hgt⟩ := hall 1 (by omega)
              rw [monthStates_succ] at hd
              have hle : d.balance ≤ eps :=
                calc d.balance ≤
                    totalBalance (monthCore s b (monthStates s b debts 0)).debts :=
                      balance_le_totalBalance _
                        (monthCore_balance_nonneg s b (monthStates s b debts 0)) d hd
                  _ = (monthCore s b debts).totalBalanceEnd :=
                      (monthCore_totalBalanceEnd_eq s b debts).symm
                  _ ≤ eps := hbreak
              linarith
        · rw [if_neg hbreak]
          rw [ih (months + 1) _ _ _ (by omega)]
          constructor
          · intro hall j hj
            cases j with
            | zero => exact hact'
            | succ jj =>
                rw [monthStates_shift]
                exact hall jj (by omega)
          · intro hall j hj
            have := hall (j + 1) (by omega)
            rw [monthStates_shift] at this
            exact this
      · rw [if_neg hact]
        dsimp only
        constructor
        · intro hge
          exfalso
          omega
        · intro hall
          exfalso
          obtain ⟨d, hd, hgt⟩ := hall 0 (by omega)
          exact hact (List.any_eq_true.mpr ⟨d, hd, decide_eq_true hgt⟩)

/-- C8 (amended): for inputs passing all up-front validation, the
plan-exceeds-horizon failure is returned exactly when, for every month
index `k < cap`, some debt's balance still exceeds `eps` after `k`
simulated months; equivalently success is returned iff all balances drop
to at most `eps` at some month index strictly below the cap.  The
original claim's "at or before the cap" direction fails: a payoff landing
exactly on month `cap` still trips the `months >= maxMonths` check and is
reported as the horizon failure (see counterexample). -/
theorem c8_horizon_iff (input : List Debt) (budget : Option ℚ) (s : Strategy)
    (hb : 0 < parseNum budget)
    (hne : cloneNumericDebts input ≠ [])
    (hmins : ((cloneNumericDebts input).map fun d => d.minPayment).sum ≤
      parseNum budget + tol) :
    calculatePlan input budget s = .error horizonErr ↔
      ∀ j, j < MAX_MONTHS →
        ∃ d ∈ monthStates s (parseNum budget) (cloneNumericDebts input) j,
          eps < d.balance := by
  have hiff := runLoop_months_ge_iff s (parseNum budget) MAX_MONTHS 0 0 []
    (cloneNumericDebts input) (by omega)
  simp only [calculatePlan]
  rw [if_neg (not_le.mpr hb),
    if_neg (fun h => hne (List.isEmpty_iff.mp h)),
    if_neg (not_lt.mpr hmins)]
  by_cases hcap : MAX_MONTHS ≤
      (runLoop s (parseNum budget) MAX_MONTHS 0 0 [] (cloneNumericDebts input)).1
  · rw [if_pos hcap]
    constructor
    · intro _
      exact hiff.mp hcap
    · intro _
      rfl
  · rw [if_neg hcap]
    constructor
    · intro hcontra
      exact absurd hcontra (by simp)
    · intro hall
      exact absurd (hiff.mpr hall) hcap

/-- C8 witness: a one-month payoff is not the horizon failure. -/
theorem c8_horizon_iff_witness :
    ¬ (calculatePlan [⟨1, "A", some 10, some 0, some 10⟩] (some 10) .warrior =
      .error horizonErr) := by
  intro hcontra
  have h := (c8_horizon_iff [⟨1, "A", some 10, some 0, some 10⟩] (some 10) .warrior
    (of_decide_eq_true (by with_unfolding_all rfl))
    (of_decide_eq_true (by with_unfolding_all rfl))
    (of_decide_eq_true (by with_unfolding_all rfl))).mp hcontra 1 (by decide)
  exact absurd h (of_decide_eq_true (by with_unfolding_all rfl))

theorem allocLoop_zero_left (debts : List NumericDebt) (ints : List ℚ)
    (items : List PriorityItem) (fuel : ℕ) (payments : List ℚ) :
    allocLoop debts ints items fuel payments 0 = (payments, 0) := by
  cases fuel with
  | zero => rfl
  | succ n =>
      simp only [allocLoop]
      rw [if_pos]
      norm_num [eps]

/-- One month of a single zero-APR debt with minimum payment 1 and budget
1: the balance drops by exactly 1. -/
theorem monthCore_single_step (s : Strategy) (idv : ℕ) (nm : String) (x : ℚ)
    (hx : 1 ≤ x) :
    monthCore s 1 [⟨idv, nm, x, 0, 1⟩] = ⟨[⟨idv, nm, x - 1, 0, 1⟩], x - 1, 0, 1⟩ := by
  have hxe : ¬ (x ≤ eps) := by
    rw [eps]
    push_neg
    linarith
  have hint : interestOf ⟨idv, nm, x, 0, 1⟩ = 0 := by
    rw [interestOf, if_neg hxe]
    norm_num
  have hmin : minDueOf ⟨idv, nm, x, 0, 1⟩ = 1 := by
    rw [minDueOf, if_neg hxe, hint, add_zero]
    exact min_eq_left hx
  have hIBI : interestByIndex [⟨idv, nm, x, 0, 1⟩] = [0] := by
    rw [interestByIndex, List.map_singleton, hint]
  have hMBI : minDueByIndex [⟨idv, nm, x, 0, 1⟩] = [1] := by
    rw [minDueByIndex, List.map_singleton, hmin]
  have hpay : totalPaymentByIndex s 1 [⟨idv, nm, x, 0, 1⟩] = [1] := by
    rw [totalPaymentByIndex, hMBI, hIBI]
    have hzero : max 0 ((1 : ℚ) - ([(1 : ℚ)]).sum) = 0 := by norm_num
    rw [hzero, allocLoop_zero_left]
  have hnb : ¬ (x + 0 - 1 < 0) := by
    push_neg
    linarith
  simp only [monthCore, hpay, hIBI, List.enum, List.enumFrom, List.map,
    List.getD_cons_zero, List.sum_cons, List.sum_nil, MonthOutcome.mk.injEq]
  rw [if_neg hnb]
  refine ⟨?_, by ring, by norm_num, ?_⟩
  · rw [List.cons.injEq, NumericDebt.mk.injEq]
    exact ⟨⟨rfl, rfl, by ring, rfl, rfl⟩, rfl⟩
  · rw [show ((1 : ℚ) - 0) = 1 by ring, show max (0 : ℚ) 1 = 1 from max_eq_right (by norm_num)]
    ring

theorem monthStates_single (s : Strategy) (idv : ℕ) (nm : String) (n k : ℕ)
    (hk : k ≤ n) :
    monthStates s 1 [⟨idv, nm, (n : ℚ), 0, 1⟩] k =
      [⟨idv, nm, ((n - k : ℕ) : ℚ), 0, 1⟩] := by
  induction k with
  | zero => rfl
  | succ kk ih =>
      rw [monthStates_succ, ih (by omega),
        monthCore_single_step s idv nm _ (Nat.one_le_cast.mpr (by omega))]
      have hcast : ((n - kk : ℕ) : ℚ) - 1 = ((n - (kk + 1) : ℕ) : ℚ) := by
        have h1 : n - (kk + 1) = (n - kk) - 1 := by omega
        rw [h1, Nat.cast_sub (by omega : 1 ≤ n - kk)]
        norm_num
      rw [hcast]

theorem runLoop_single (s : Strategy) (idv : ℕ) (nm : String) :
    ∀ (n fuel months : ℕ) (ti : ℚ) (sched : List ScheduleRow),
      1 ≤ n → n ≤ fuel →
      (runLoop s 1 fuel months ti sched [⟨idv, nm, (n : ℚ), 0, 1⟩]).1 =
        months + n := by
  intro n
  induction n with
  | zero =>
      intro fuel months ti sched h1 _
      exact absurd h1 (by omega)
  | succ nn ih =>
      intro fuel months ti sched _ h2
      cases fuel with
      | zero => omega
      | succ f =>
          simp only [runLoop]
          have hany : (([⟨idv, nm, ((nn + 1 : ℕ) : ℚ), 0, 1⟩] : List NumericDebt).any
              fun d => decide (eps < d.balance)) = true := by
            simp only [List.any_cons, List.any_nil, Bool.or_false, decide_eq_true_eq]
            rw [eps]
            have : (1 : ℚ) ≤ ((nn + 1 : ℕ) : ℚ) := Nat.one_le_cast.mpr (by omega)
            linarith
          rw [if_pos hany,
            monthCore_single_step s idv nm _ (Nat.one_le_cast.mpr (by omega))]
          have hcast : ((nn + 1 : ℕ) : ℚ) - 1 = ((nn : ℕ) : ℚ) := by
            push_cast
            ring
          rcases Nat.eq_zero_or_pos nn with h0 | hpos
          · subst h0
            rw [if_pos (by rw [hcast]; norm_num [eps])]
          · rw [if_neg (by
              rw [hcast]
              rw [eps]
              push_neg
              have : (1 : ℚ) ≤ ((nn : ℕ) : ℚ) := Nat.one_le_cast.mpr (by omega)
              linarith)]
            rw [hcast]
            rw [ih f (months + 1) _ _ (by omega) (by omega)]
            omega

set_option maxRecDepth 10000 in
/-- C8 counterexample: one debt with balance 1,200,000, apr 0, minimum
payment 1 and budget 1 is fully paid off exactly at month
`MAX_MONTHS = 1,200,000` (its balance after `MAX_MONTHS` simulated months
is 0 ≤ eps), i.e. the total balance reaches epsilon at a month at or
before the cap — yet `calculatePlan` returns the plan-exceeds-horizon
failure, because the post-loop check `months >= maxMonths` also fires on
a payoff landing exactly on the cap month. -/
theorem c8_counterexample :
    calculatePlan [⟨1, "A", some 1200000, some 0, some 1⟩] (some 1) .warrior =
      .error horizonErr ∧
    ∀ d ∈ monthStates .warrior 1
        (cloneNumericDebts [⟨1, "A", some 1200000, some 0, some 1⟩]) MAX_MONTHS,
      d.balance ≤ eps := by
  have hclone : cloneNumericDebts [⟨1, "A", some 1200000, some 0, some 1⟩] =
      [⟨1, "A", ((1200000 : ℕ) : ℚ), 0, 1⟩] := by
    rw [show ((1200000 : ℕ) : ℚ) = (1200000 : ℚ) by norm_num]
    simp only [cloneNumericDebts, List.map_singleton, parseNum, Option.getD_some]
    norm_num [List.filter]
    intro h
    exact absurd h (by decide)
  have hMM : MAX_MONTHS = 1200000 := rfl
  constructor
  · simp only [calculatePlan]
    have hp : parseNum (some 1) = (1 : ℚ) := rfl
    rw [hp, hclone]
    rw [if_neg (by norm_num)]
    rw [if_neg (by rw [List.isEmpty_iff]; exact fun h => List.cons_ne_nil _ _ h)]
    rw [if_neg (by
      rw [List.map_singleton]
      dsimp only
      rw [tol]
      push_neg
      norm_num)]
    have hrun := runLoop_single .warrior 1 "A" 1200000 MAX_MONTHS 0 0 []
      (by omega) hMM.ge
    rw [if_pos (by rw [hrun, hMM])]
  · intro d hd
    rw [hclone, monthStates_single .warrior 1 "A" 1200000 MAX_MONTHS hMM.le] at hd
    rw [List.mem_singleton] at hd
    rw [hd]
    have hz : ((1200000 - MAX_MONTHS : ℕ) : ℚ) = 0 := by
      rw [hMM]
      norm_num
    show ((1200000 - MAX_MONTHS : ℕ) : ℚ) ≤ eps
    rw [hz, eps]
    norm_num

end DebtPlan
